import Mathlib

/-!
Shallow embedding of the AIAS patch pipeline (riekards/aias) and proofs
about it.  The definitions mirror, function by function, the Python source:

* `src/aias/agent.py`    — `resolve_path`, `ask_llm`, `propose_patch`,
  `background_worker`, `classify_command`, `learn_from_interaction`
* `src/aias/core.py`     — `classify_command` (the second variant)
* `src/aias/utils/patcher.py` — `generate_patch_note`, `safe_update_file`
* `src/aias/commands/SelfImproveCommand.py` — the insight dedup pass

Machine-level details that do not affect the verified control flow
(regex filename extraction, timestamps, logging text) are passed in as
explicit parameters or elided, as noted on each definition.
-/

namespace Aias

/-! ## Python string primitives

Paths and file contents are Lean `String`s; Python operations on them are
embedded as character-list operations so that their algebra is provable. -/

/-- Embeds Python `str.lower()`: lower-case every character. -/
def pyLower (s : String) : String := String.mk (s.data.map Char.toLower)

/-- Embeds Python `big.endswith(small)`: the last `small.length` characters
of `big` equal `small` (false when `small` is longer than `big`). -/
def pyEndsWith (big small : List Char) : Bool :=
  big.drop (big.length - small.length) == small

/-- The characters `small` occur at the start of `big`. -/
def startsWithList : List Char → List Char → Bool
  | _, [] => true
  | [], _ :: _ => false
  | b :: bs, s :: ss => b == s && startsWithList bs ss

/-- The characters `small` occur contiguously somewhere in `big`. -/
def containsSubList : List Char → List Char → Bool
  | [], small => small.isEmpty
  | b :: bs, small => startsWithList (b :: bs) small || containsSubList bs small

/-- Embeds Python `small in big` (substring containment). -/
def containsSub (big small : String) : Bool :=
  containsSubList big.data small.data

theorem pyEndsWith_append (l s : List Char) : pyEndsWith (l ++ s) s = true := by
  simp [pyEndsWith, List.drop_left]

/-! ## File index resolver (`agent.py` lines 50–55, `core.py` lines 84–93)

Both files define the same `resolve_path`: a linear scan of the index
returning the first entry whose lower-cased form ends with the lower-cased
query.  The global `known_files` list is passed explicitly. -/

/-- The match test of `resolve_path`: `p.lower().endswith(filename.lower())`. -/
def lowerEndsWith (p filename : String) : Bool :=
  pyEndsWith (pyLower p).data (pyLower filename).data

/-- Embeds `resolve_path` from `src/aias/agent.py` (identical in
`src/aias/core.py`): first indexed path whose lower-cased form ends with
the lower-cased `filename`, else `none`. -/
def resolve_path (known_files : List String) (filename : String) : Option String :=
  known_files.find? (fun p => lowerEndsWith p filename)

/-- `s` is a proper path suffix of `p`: `p` is some directory prefix,
a slash, then `s`. -/
def properPathSuffix (s p : String) : Prop :=
  ∃ r : List Char, p.data = r ++ '/' :: s.data

theorem lowerEndsWith_of_properPathSuffix {s p : String}
    (h : properPathSuffix s p) : lowerEndsWith p s = true := by
  obtain ⟨r, hr⟩ := h
  have : (pyLower p).data = (r.map Char.toLower ++ ['/'.toLower]) ++ (pyLower s).data := by
    simp [pyLower, hr]
  rw [lowerEndsWith, this, pyEndsWith_append]

theorem find?_eq_some_of_unique {α : Type} (pred : α → Bool) (l : List α) (a : α)
    (ha : a ∈ l) (hpa : pred a = true)
    (huniq : ∀ b ∈ l, b ≠ a → pred b = false) :
    l.find? pred = some a := by
  induction l with
  | nil => cases ha
  | cons x xs ih =>
    by_cases hx : x = a
    · subst hx
      simp [List.find?, hpa]
    · have hpx : pred x = false := huniq x (List.mem_cons_self x xs) hx
      have ha' : a ∈ xs := by
        rcases List.mem_cons.mp ha with h | h
        · exact absurd h.symm hx
        · exact h
      simp only [List.find?, hpx]
      exact ih ha' (fun b hb hba => huniq b (List.mem_cons_of_mem x hb) hba)

theorem find?_append_first {α : Type} (pred : α → Bool) (l1 l2 : List α) (a : α)
    (hpa : pred a = true) (hl1 : ∀ b ∈ l1, pred b = false) :
    (l1 ++ a :: l2).find? pred = some a := by
  induction l1 with
  | nil => simp [List.find?, hpa]
  | cons x xs ih =>
    have hpx : pred x = false := hl1 x (List.mem_cons_self x xs)
    simp only [List.cons_append, List.find?, hpx]
    exact ih (fun b hb => hl1 b (List.mem_cons_of_mem x hb))

/-- Claim C6: for an indexed path `p` and a proper path suffix `s` of `p`
such that no other indexed path lower-case-ends with `s`, `resolve_path`
returns exactly `p`; and when several indexed paths share the suffix,
`resolve_path` returns the first one in index order. -/
theorem resolve_path_suffix_unique_and_first :
    ∀ (known : List String) (p s : String),
      (p ∈ known → properPathSuffix s p →
        (∀ q ∈ known, q ≠ p → lowerEndsWith q s = false) →
        resolve_path known s = some p) ∧
      (∀ l1 l2 : List String, known = l1 ++ p :: l2 →
        lowerEndsWith p s = true →
        (∀ q ∈ l1, lowerEndsWith q s = false) →
        resolve_path known s = some p) := by
  intro known p s
  constructor
  · intro hmem hsuf huniq
    exact find?_eq_some_of_unique _ known p hmem
      (lowerEndsWith_of_properPathSuffix hsuf) huniq
  · intro l1 l2 hk hp hl1
    subst hk
    exact find?_append_first _ l1 l2 p hp hl1

/-- Witness for C6 at concrete inputs: `"patcher.py"` uniquely resolves to
`"utils/patcher.py"`, and with two files sharing the suffix `"x.py"` the
first indexed one wins. -/
theorem resolve_path_suffix_unique_and_first_witness :
    resolve_path ["utils/patcher.py", "agent.py"] "patcher.py" = some "utils/patcher.py" ∧
    resolve_path ["b/x.py", "a/x.py"] "x.py" = some "b/x.py" := by
  constructor
  · exact (resolve_path_suffix_unique_and_first
        ["utils/patcher.py", "agent.py"] "utils/patcher.py" "patcher.py").1
      (by decide) ⟨"utils".data, by decide⟩ (by decide)
  · exact (resolve_path_suffix_unique_and_first
        ["b/x.py", "a/x.py"] "b/x.py" "x.py").2 [] ["a/x.py"] rfl
      (by decide) (by decide)

/-! ## Intent classification (`agent.py` lines 162–172, `core.py` lines 97–133)

The repository holds two variants of `classify_command`.  Both lower-case
the input and test fixed keyword sets by substring containment; the regex
filename extraction (`re.findall`) does not influence the chosen kind and
is passed in as an explicit parameter. -/

/-- The classifier result: the dict `{"type": ..., "filenames": ..., "task": ...}`. -/
structure Command where
  type : String
  filenames : List String
  task : Option String
deriving DecidableEq, Repr

def locateKeywords : List String := ["where is", "locate", "find"]

def patchKeywords : List String := ["patch", "update", "fix", "refactor", "modify"]

def renameKeywords : List String := ["rename", "move"]

def createKeywords : List String := ["create file", "make new file"]

def featureKeywords : List String := ["feature", "feature request"]

/-- `any(k in t for k in ks)`. -/
def hasAny (t : String) (ks : List String) : Bool :=
  ks.any (fun k => containsSub t k)

namespace Agent

/-- Embeds `classify_command` from `src/aias/agent.py`: locate keywords are
tested first, then patch keywords, then `"improve"`, else chat.
`extractParts` stands for `re.findall(r"\b[\w./]+\b", text)`. -/
def classify_command (text : String) (extractParts : String → List String) : Command :=
  let t := pyLower text
  if hasAny t locateKeywords then ⟨"locate", extractParts text, none⟩
  else if hasAny t patchKeywords then ⟨"patch", extractParts text, some text⟩
  else if containsSub t "improve" then ⟨"self_improve", [], some text⟩
  else ⟨"chat", [], none⟩

end Agent

namespace Core

/-- Embeds `classify_command` from `src/aias/core.py`: rename/move first,
then patch, create, reflect, improve, feature, locate, chat.
`extractFiles` stands for the regex/extension candidate-file extraction;
`reReflect` and `reImprove` stand for the
`re.search(r"\bself\s+reflect\b", t)` / `...improve...` word-boundary tests. -/
def classify_command (text : String) (extractFiles : String → List String)
    (reReflect reImprove : String → Bool) : Command :=
  let t := pyLower text
  let files := extractFiles text
  if hasAny t renameKeywords then ⟨"rename", files, none⟩
  else if hasAny t patchKeywords then ⟨"patch", files, some text⟩
  else if hasAny t createKeywords then ⟨"create", files, none⟩
  else if reReflect t then ⟨"reflect", [], none⟩
  else if reImprove t then ⟨"improve", [], none⟩
  else if hasAny t featureKeywords then ⟨"feature", [], none⟩
  else if hasAny t locateKeywords then ⟨"locate", files, none⟩
  else ⟨"chat", files, none⟩

end Core

/-- Claim C5, corrected: the two classifier variants disagree on the
patch/locate priority.  In `agent.py` the locate keywords are tested first,
so any text containing a locate keyword classifies as `locate` (even when a
patch keyword is also present); in `core.py` the patch keywords are tested
before the locate keywords, so a text containing a patch keyword and no
rename/move keyword classifies as `patch`. -/
theorem classify_priority_patch_vs_locate :
    ∀ (text : String) (extractParts extractFiles : String → List String)
      (reReflect reImprove : String → Bool),
      (hasAny (pyLower text) locateKeywords = true →
        (Agent.classify_command text extractParts).type = "locate") ∧
      (hasAny (pyLower text) patchKeywords = true →
        hasAny (pyLower text) renameKeywords = false →
        (Core.classify_command text extractFiles reReflect reImprove).type = "patch") := by
  intro text extractParts extractFiles reReflect reImprove
  constructor
  · intro hloc
    simp [Agent.classify_command, hloc]
  · intro hpatch hren
    simp [Core.classify_command, hpatch, hren]

/-- Witness for C5 (amended) at the concrete text
`"fix where is agent.py"`, which contains both a patch keyword (`fix`) and a
locate keyword (`where is`): the `agent.py` variant says `locate`, the
`core.py` variant says `patch`. -/
theorem classify_priority_patch_vs_locate_witness :
    (Agent.classify_command "fix where is agent.py" (fun _ => [])).type = "locate" ∧
    (Core.classify_command "fix where is agent.py" (fun _ => [])
      (fun _ => false) (fun _ => false)).type = "patch" := by
  constructor
  · exact (classify_priority_patch_vs_locate "fix where is agent.py"
      (fun _ => []) (fun _ => []) (fun _ => false) (fun _ => false)).1 (by decide)
  · exact (classify_priority_patch_vs_locate "fix where is agent.py"
      (fun _ => []) (fun _ => []) (fun _ => false) (fun _ => false)).2
      (by decide) (by decide)

/-- Counterexample to claim C5 as stated: the text
`"fix where is agent.py"` contains the patch keyword `"fix"` and the locate
keyword `"where is"`, yet the `classify_command` of `src/aias/agent.py`
returns kind `locate`, not `patch` — locate keywords are tested first
there. -/
theorem classify_priority_counterexample :
    containsSub (pyLower "fix where is agent.py") "fix" = true ∧
    containsSub (pyLower "fix where is agent.py") "where is" = true ∧
    (Agent.classify_command "fix where is agent.py" (fun _ => [])).type ≠ "patch" := by
  refine ⟨by decide, by decide, ?_⟩
  decide

/-! ## Unified diffs (`utils/patcher.py` lines 15–32)

`generate_patch_note` stores `difflib.unified_diff` of the old and new
content split into lines (`splitlines(keepends=True)`).  The diff is
modelled as a list of per-line edit operations — the context (` `),
deletion (`-`) and insertion (`+`) lines of a unified diff; headers and
hunk markers carry no content and are elided.  `difflib`'s matcher picks
longer common blocks than the simple scan below, but both produce correct
line diffs, and correctness of application is the property at stake. -/

/-- One line of a unified diff body: a context line, a deleted line or an
inserted line. -/
inductive EditOp (α : Type) : Type
  | keep (x : α)
  | del (x : α)
  | ins (x : α)
deriving DecidableEq, Repr

/-- Splits after every newline character, keeping the newline, as Python
`str.splitlines(keepends=True)` does (only `\n` line ends are modelled). -/
def splitLinesAux : List Char → List Char → List (List Char)
  | [], acc => if acc.isEmpty then [] else [acc.reverse]
  | c :: rest, acc =>
    if c = '\n' then (acc.reverse ++ ['\n']) :: splitLinesAux rest []
    else splitLinesAux rest (c :: acc)

def splitLines (s : String) : List (List Char) :=
  splitLinesAux s.data []

theorem splitLinesAux_flatten (cs : List Char) :
    ∀ acc, (splitLinesAux cs acc).flatten = acc.reverse ++ cs := by
  induction cs with
  | nil =>
    intro acc
    by_cases h : acc.isEmpty
    · simp [splitLinesAux, h, List.isEmpty_iff.mp h]
    · simp [splitLinesAux, h]
  | cons c rest ih =>
    intro acc
    by_cases h : c = '\n'
    · simp [splitLinesAux, h, ih]
    · simp [splitLinesAux, h, ih]

theorem splitLines_flatten (s : String) : (splitLines s).flatten = s.data := by
  simp [splitLines, splitLinesAux_flatten]

/-- A correct line diff: matching heads become context lines, otherwise the
old head is deleted; leftovers are pure insertions/deletions. -/
def diffLines : List (List Char) → List (List Char) → List (EditOp (List Char))
  | [], ys => ys.map EditOp.ins
  | x :: xs, [] => EditOp.del x :: diffLines xs []
  | x :: xs, y :: ys =>
    if x = y then EditOp.keep x :: diffLines xs ys
    else EditOp.del x :: diffLines xs (y :: ys)

/-- Applies a line diff to a source line list; `none` when the diff does
not fit the source (a context or deleted line disagrees). -/
def applyDiff : List (EditOp (List Char)) → List (List Char) → Option (List (List Char))
  | [], [] => some []
  | [], _ :: _ => none
  | EditOp.keep x :: d, y :: ys =>
    if x = y then (applyDiff d ys).map (fun zs => x :: zs) else none
  | EditOp.keep _ :: _, [] => none
  | EditOp.del x :: d, y :: ys =>
    if x = y then applyDiff d ys else none
  | EditOp.del _ :: _, [] => none
  | EditOp.ins x :: d, ys => (applyDiff d ys).map (fun zs => x :: zs)

theorem applyDiff_ins_all (ys : List (List Char)) :
    applyDiff (ys.map EditOp.ins) [] = some ys := by
  induction ys with
  | nil => rfl
  | cons y ys ih => simp [applyDiff, ih]

theorem applyDiff_diffLines (xs : List (List Char)) :
    ∀ ys, applyDiff (diffLines xs ys) xs = some ys := by
  induction xs with
  | nil =>
    intro ys
    simp [diffLines, applyDiff_ins_all]
  | cons x xs ih =>
    intro ys
    cases ys with
    | nil => simp [diffLines, applyDiff, ih]
    | cons y ys =>
      by_cases h : x = y
      · subst h
        simp [diffLines, applyDiff, ih]
      · simp [diffLines, h, applyDiff, ih]

/-- The diff stored in a patch note, as line edit operations. -/
def ContentDiff : Type := List (EditOp (List Char))

instance : DecidableEq ContentDiff := by
  unfold ContentDiff
  infer_instance

/-- Embeds `generate_patch_note` from `src/aias/utils/patcher.py`: the
patch-note content is the unified diff of the old and new content split
into kept-ends lines (file naming and timestamping elided). -/
def generate_patch_note (old_content new_content : String) : ContentDiff :=
  diffLines (splitLines old_content) (splitLines new_content)

/-- Applying a patch note to a file content: apply the line diff to the
content's lines and reassemble. -/
def applyContentDiff (d : ContentDiff) (s : String) : Option String :=
  (applyDiff d (splitLines s)).map (fun ls => String.mk ls.flatten)

theorem applyContentDiff_generate (old new : String) :
    applyContentDiff (generate_patch_note old new) old = some new := by
  simp only [applyContentDiff, generate_patch_note, applyDiff_diffLines, Option.map]
  rw [Option.some.injEq, splitLines_flatten]

/-! ## Safe Updater (`utils/patcher.py` lines 35–70)

`safe_update_file` works on one target path.  Its interaction with the
world is made explicit: `ext` is `os.path.splitext(file_path)[1].lower()`,
`current` is the file's content on disk (`none` when the file does not
exist), `approve` is whether the `input()` answer at the approval prompt
is `"y"`.  The result records the returned boolean, the branch taken (the
spec's outcome names), the file content after the call, and the patch note
created by the call, if any. -/

/-- Python `str.strip()`: drop whitespace at both ends. -/
def pyStrip (s : String) : String :=
  String.mk (((s.data.dropWhile Char.isWhitespace).reverse.dropWhile
    Char.isWhitespace).reverse)

structure PatchConfig where
  restricted_extensions : List String
  patch_approval : Bool
deriving DecidableEq, Repr

/-- The four outcomes of §4.5 of the spec, naming the branch
`safe_update_file` takes. -/
inductive UpdateOutcome : Type
  | blocked
  | unchanged
  | rejected
  | applied
deriving DecidableEq, Repr

structure UpdateResult where
  /-- The boolean the Python function returns. -/
  ret : Bool
  outcome : UpdateOutcome
  /-- Content of the target file after the call (`none`: file absent). -/
  fileAfter : Option String
  /-- The patch note created by this call, if any. -/
  note : Option ContentDiff
deriving DecidableEq

/-- Embeds `safe_update_file` from `src/aias/utils/patcher.py`. -/
def safe_update_file (cfg : PatchConfig) (ext : String) (current : Option String)
    (new_content : String) (approve : Bool) : UpdateResult :=
  if cfg.restricted_extensions.contains ext then
    ⟨false, UpdateOutcome.blocked, current, none⟩
  else
    let old_content := current.getD ""
    if pyStrip old_content == pyStrip new_content then
      ⟨true, UpdateOutcome.unchanged, current, none⟩
    else
      let note := generate_patch_note old_content new_content
      if cfg.patch_approval && !approve then
        ⟨false, UpdateOutcome.rejected, current, some note⟩
      else
        ⟨true, UpdateOutcome.applied, some new_content, some note⟩

/-- Claim C1, corrected: a call to `safe_update_file` taking the `applied`
or `rejected` outcome creates exactly one new patch note, the unified diff
of the pre-call content and the proposed content; for `applied` — the only
mutating outcome — that diff applied to the pre-call content reproduces
the post-call content; `blocked` and `unchanged` calls create no patch
note and leave the file as it was. -/
theorem safe_update_patch_note_spec :
    ∀ (cfg : PatchConfig) (ext : String) (current : Option String)
      (new_content : String) (approve : Bool),
      ((safe_update_file cfg ext current new_content approve).outcome = UpdateOutcome.applied ∨
        (safe_update_file cfg ext current new_content approve).outcome = UpdateOutcome.rejected →
        (safe_update_file cfg ext current new_content approve).note =
          some (generate_patch_note (current.getD "") new_content)) ∧
      ((safe_update_file cfg ext current new_content approve).outcome = UpdateOutcome.applied →
        (safe_update_file cfg ext current new_content approve).fileAfter = some new_content ∧
        ∃ d, (safe_update_file cfg ext current new_content approve).note = some d ∧
          applyContentDiff d (current.getD "") = some new_content) ∧
      ((safe_update_file cfg ext current new_content approve).outcome = UpdateOutcome.blocked ∨
        (safe_update_file cfg ext current new_content approve).outcome = UpdateOutcome.unchanged →
        (safe_update_file cfg ext current new_content approve).note = none ∧
        (safe_update_file cfg ext current new_content approve).fileAfter = current) := by
  intro cfg ext current new_content approve
  by_cases h1 : ext ∈ cfg.restricted_extensions
  · refine ⟨?_, ?_, ?_⟩ <;> simp [safe_update_file, h1]
  · by_cases h2 : pyStrip (current.getD "") = pyStrip new_content
    · refine ⟨?_, ?_, ?_⟩ <;> simp [safe_update_file, h1, h2]
    · by_cases h3 : cfg.patch_approval <;> by_cases h4 : approve <;>
        (refine ⟨?_, ?_, ?_⟩ <;>
          simp [safe_update_file, h1, h2, h3, h4, applyContentDiff_generate])

/-- Witness for C1 (amended) at concrete inputs: updating a `.py` file
containing `"a\n"` to `"b\n"` with approval mode off is `applied`, creates
the patch note diffing the two contents, and applying that note to the
pre-call content gives the post-call content. -/
theorem safe_update_patch_note_spec_witness :
    (safe_update_file ⟨[], false⟩ ".py" (some "a\n") "b\n" true).outcome =
      UpdateOutcome.applied ∧
    (safe_update_file ⟨[], false⟩ ".py" (some "a\n") "b\n" true).note =
      some (generate_patch_note "a\n" "b\n") ∧
    applyContentDiff (generate_patch_note "a\n" "b\n") "a\n" = some "b\n" := by
  have h := safe_update_patch_note_spec ⟨[], false⟩ ".py" (some "a\n") "b\n" true
  have houtcome : (safe_update_file ⟨[], false⟩ ".py" (some "a\n") "b\n" true).outcome =
      UpdateOutcome.applied := by decide
  obtain ⟨hfile, d, hd, happly⟩ := h.2.1 houtcome
  refine ⟨houtcome, h.1 (Or.inl houtcome), ?_⟩
  have : d = generate_patch_note "a\n" "b\n" := by
    have := h.1 (Or.inl houtcome)
    rw [this] at hd
    exact (Option.some.injEq _ _ ▸ hd).symm
  rw [← this]
  exact happly

/-- Counterexample to claim C1 as stated: a `blocked` call (restricted
extension `.yaml`) does not take the `unchanged` outcome, yet creates no
patch note — the restriction check returns before `generate_patch_note`
is reached (`src/aias/utils/patcher.py` lines 40–42). -/
theorem safe_update_patch_note_counterexample :
    (safe_update_file ⟨[".yaml"], true⟩ ".yaml" (some "a: 1\n") "b: 2\n" true).outcome ≠
      UpdateOutcome.unchanged ∧
    (safe_update_file ⟨[".yaml"], true⟩ ".yaml" (some "a: 1\n") "b: 2\n" true).note = none := by
  constructor
  · decide
  · rfl

/-- Claim C4, corrected: `safe_update_file` is idempotent provided the
first call succeeds (returns `True`, i.e. takes the `applied` or
`unchanged` outcome): the second call with the same content takes the
`unchanged` outcome, writes nothing and creates no patch note.  (A first
call rejected at the approval prompt leaves the file different from the
proposed content, so the second call is not `unchanged`.) -/
theorem safe_update_idempotent :
    ∀ (cfg : PatchConfig) (ext : String) (current : Option String)
      (new_content : String) (a1 a2 : Bool),
      (safe_update_file cfg ext current new_content a1).ret = true →
      (safe_update_file cfg ext
          (safe_update_file cfg ext current new_content a1).fileAfter
          new_content a2).outcome = UpdateOutcome.unchanged ∧
      (safe_update_file cfg ext
          (safe_update_file cfg ext current new_content a1).fileAfter
          new_content a2).fileAfter =
        (safe_update_file cfg ext current new_content a1).fileAfter ∧
      (safe_update_file cfg ext
          (safe_update_file cfg ext current new_content a1).fileAfter
          new_content a2).note = none := by
  intro cfg ext current new_content a1 a2 hret
  by_cases h1 : ext ∈ cfg.restricted_extensions
  · simp [safe_update_file, h1] at hret
  · by_cases h2 : pyStrip (current.getD "") = pyStrip new_content
    · have hfile : (safe_update_file cfg ext current new_content a1).fileAfter = current := by
        simp [safe_update_file, h1, h2]
      rw [hfile]
      refine ⟨?_, ?_, ?_⟩ <;> simp [safe_update_file, h1, h2]
    · have hfile : (safe_update_file cfg ext current new_content a1).fileAfter =
          some new_content := by
        by_cases h3 : cfg.patch_approval <;> by_cases h4 : a1
        · simp [safe_update_file, h1, h2, h3, h4]
        · exfalso
          simp [safe_update_file, h1, h2, h3, h4] at hret
        · simp [safe_update_file, h1, h2, h3, h4]
        · simp [safe_update_file, h1, h2, h3, h4]
      rw [hfile]
      refine ⟨?_, ?_, ?_⟩ <;> simp [safe_update_file, h1]

/-- Witness for C4 (amended) at concrete inputs: a successful first update
of a `.py` file from `"a"` to `"b"` makes the second call with `"b"`
`unchanged`, with no write and no patch note. -/
theorem safe_update_idempotent_witness :
    (safe_update_file ⟨[], false⟩ ".py" (some "a") "b" true).ret = true ∧
    (safe_update_file ⟨[], false⟩ ".py"
        (safe_update_file ⟨[], false⟩ ".py" (some "a") "b" true).fileAfter
        "b" true).outcome = UpdateOutcome.unchanged := by
  have hret : (safe_update_file ⟨[], false⟩ ".py" (some "a") "b" true).ret = true := by
    decide
  exact ⟨hret, (safe_update_idempotent ⟨[], false⟩ ".py" (some "a") "b" true true hret).1⟩

/-- Counterexample to claim C4 as stated: with approval mode on and the
user answering no, the first call on a non-restricted `.py` path is
`rejected` and does not write, so the second call with the same content is
`rejected` again — not `unchanged` — and creates another patch note. -/
theorem safe_update_idempotent_counterexample :
    (safe_update_file ⟨[], true⟩ ".py"
        (safe_update_file ⟨[], true⟩ ".py" (some "old text") "new text" false).fileAfter
        "new text" false).outcome ≠ UpdateOutcome.unchanged ∧
    (safe_update_file ⟨[], true⟩ ".py"
        (safe_update_file ⟨[], true⟩ ".py" (some "old text") "new text" false).fileAfter
        "new text" false).note ≠ none := by
  constructor
  · decide
  · decide

/-- Claim C10, corrected: on a path that does not exist and whose extension
is not restricted, `safe_update_file` treats the current content as the
empty string and never fails; when the new content trims to the empty
string the call is `unchanged` — no patch note, no file created, `True`
returned; otherwise a patch note diffing from empty to the new content is
created and, unless approval mode is on and the user declines, the file is
created with the new content and `True` returned; a declined approval
leaves the file uncreated and returns `False`. -/
theorem safe_update_missing_file_spec :
    ∀ (cfg : PatchConfig) (ext : String) (new_content : String) (approve : Bool),
      ext ∉ cfg.restricted_extensions →
      ((pyStrip new_content = "" →
          safe_update_file cfg ext none new_content approve =
            ⟨true, UpdateOutcome.unchanged, none, none⟩) ∧
        (pyStrip new_content ≠ "" →
          (safe_update_file cfg ext none new_content approve).note =
            some (generate_patch_note "" new_content) ∧
          ((cfg.patch_approval && !approve) = false →
            safe_update_file cfg ext none new_content approve =
              ⟨true, UpdateOutcome.applied, some new_content,
                some (generate_patch_note "" new_content)⟩) ∧
          ((cfg.patch_approval && !approve) = true →
            safe_update_file cfg ext none new_content approve =
              ⟨false, UpdateOutcome.rejected, none,
                some (generate_patch_note "" new_content)⟩))) := by
  intro cfg ext new_content approve h1
  constructor
  · intro hempty
    have h2 : pyStrip "" = pyStrip new_content := by
      rw [hempty]
      rfl
    simp [safe_update_file, h1, ← h2]
  · intro hne
    have h2 : ¬ (pyStrip "" = pyStrip new_content) := by
      intro h
      exact hne (h.symm.trans rfl)
    refine ⟨?_, ?_, ?_⟩
    · by_cases h3 : cfg.patch_approval <;> by_cases h4 : approve <;>
        simp [safe_update_file, h1, h2, h3, h4]
    · intro h3
      by_cases h5 : cfg.patch_approval <;> by_cases h6 : approve <;>
        simp [safe_update_file, h1, h2, h5, h6] <;> simp [h5, h6] at h3
    · intro h3
      by_cases h5 : cfg.patch_approval <;> by_cases h6 : approve <;>
        simp [safe_update_file, h1, h2, h5, h6] <;> simp [h5, h6] at h3

/-- Witness for C10 (amended) at concrete inputs: creating a missing
`.py` file with content `"hello\n"` (approval mode off) is `applied` with
a patch note from empty, while proposing whitespace-only content for a
missing file is `unchanged` and creates nothing. -/
theorem safe_update_missing_file_spec_witness :
    safe_update_file ⟨[".exe"], false⟩ ".py" none "hello\n" true =
      ⟨true, UpdateOutcome.applied, some "hello\n",
        some (generate_patch_note "" "hello\n")⟩ ∧
    safe_update_file ⟨[".exe"], false⟩ ".py" none "  " true =
      ⟨true, UpdateOutcome.unchanged, none, none⟩ := by
  constructor
  · exact ((safe_update_missing_file_spec ⟨[".exe"], false⟩ ".py" "hello\n" true
      (by decide)).2 (by decide)).2.1 rfl
  · exact (safe_update_missing_file_spec ⟨[".exe"], false⟩ ".py" "  " true
      (by decide)).1 (by decide)

/-- Counterexample to claim C10 as stated: for a missing, non-restricted
path and whitespace-only content, the call takes the `unchanged` branch —
no patch note is recorded and no file is created, though the claim
demands both. -/
theorem safe_update_missing_file_counterexample :
    (safe_update_file ⟨[], false⟩ ".py" none "  " true).note = none ∧
    (safe_update_file ⟨[], false⟩ ".py" none "  " true).fileAfter = none ∧
    (safe_update_file ⟨[], false⟩ ".py" none "  " true).ret = true := by
  refine ⟨rfl, rfl, rfl⟩

/-! ## Generation client and patch proposer (`agent.py` lines 57–98)

`ask_llm` performs a generation request, and on an "uncertain" response
retries once with web-search results, catching only the fallback's
failures.  The network is made explicit in `LLMEnv`: `primary` is the
outcome of the first `requests.post(...)` chain (an `error` models a
raised exception), `fallback` the combined outcome of
`search.search_google` plus the second post inside the `try`, and
`uncertain` the regex test for phrases signalling uncertainty. -/

/-- `s` starts with the characters `pre` (Python `str.startswith`). -/
def pyStartsWith (s pre : String) : Bool :=
  startsWithList s.data pre.data

structure LLMEnv where
  primary : Except String String
  fallback : Except String String
  uncertain : String → Bool

/-- Embeds `ask_llm` from `src/aias/agent.py`: a raised primary request
propagates; an uncertain response triggers the fallback, whose failure
alone is caught (returning the original, unstripped response). -/
def ask_llm (env : LLMEnv) : Except String String :=
  match env.primary with
  | Except.error e => Except.error e
  | Except.ok resp =>
    if env.uncertain resp then
      match env.fallback with
      | Except.error _ => Except.ok resp
      | Except.ok resp2 => Except.ok (pyStrip resp2)
    else Except.ok (pyStrip resp)

/-- Embeds `propose_patch` from `src/aias/agent.py`.  `fileExists` is
`os.path.exists(filename)`.  The result is the text written to the dated
patch-note file (`none`: nothing written, the missing-file or unusable
response early return), or `error` when an exception propagates out of
`ask_llm`.  Prompt construction, file naming and timestamping are elided:
they do not affect the control flow. -/
def propose_patch (env : LLMEnv) (fileExists : Bool) : Except String (Option String) :=
  if !fileExists then Except.ok none
  else
    match ask_llm env with
    | Except.error e => Except.error e
    | Except.ok r =>
      let updated := pyStrip r
      if updated.data.isEmpty || pyStartsWith (pyLower updated) "no results" then
        Except.ok none
      else Except.ok (some updated)

/-- Modelled from the spec: "If the response contains a fenced code block,
the block's inner text is the candidate" — the inner text of the first
fenced code block of `s`.  No such extraction exists anywhere in
`src/`; this definition only states what the claim asks about. -/
def splitAtNewlines : List Char → List (List Char)
  | [] => [[]]
  | c :: rest =>
    match splitAtNewlines rest with
    | [] => [[]]
    | l :: ls => if c = '\n' then [] :: l :: ls else (c :: l) :: ls

def joinLinesWithNewline : List (List Char) → List Char
  | [] => []
  | [l] => l
  | l :: ls => l ++ '\n' :: joinLinesWithNewline ls

/-- Modelled from the spec: the inner text of the first fenced code block
(lines strictly between the first two lines starting with three
backticks), or `none` when there is no complete fenced block. -/
def extract_code_block (s : String) : Option String :=
  let ls := splitAtNewlines s.data
  match ls.findIdx? (fun l => startsWithList l "```".data) with
  | none => none
  | some i =>
    match (ls.drop (i + 1)).findIdx? (fun l => startsWithList l "```".data) with
    | none => none
    | some j => some (String.mk (joinLinesWithNewline ((ls.drop (i + 1)).take j)))

/-! ## Background worker (`agent.py` lines 100–110)

The worker loops: blocking-pop a task, exit on the `None` sentinel, run
`propose_patch`, append to `completed_tasks`.  The queue is modelled as
the FIFO list of items the worker will pop; the model returns the
completed list and how the loop ended.  There is no `try`/`except` around
the body: an `error` from `proc` ends the loop without appending. -/

abbrev Task := String × String

inductive WorkerExit : Type
  | sentinel
  | crashed (e : String)
  | starved
deriving DecidableEq, Repr

/-- Embeds `background_worker` from `src/aias/agent.py` over an explicit
queue.  `starved` models blocking forever on an exhausted queue with no
sentinel. -/
def background_worker (proc : Task → Except String (Option String)) :
    List (Option Task) → List Task × WorkerExit
  | [] => ([], WorkerExit.starved)
  | none :: _ => ([], WorkerExit.sentinel)
  | some t :: rest =>
    match proc t with
    | Except.error e => ([], WorkerExit.crashed e)
    | Except.ok _ =>
      let r := background_worker proc rest
      (t :: r.1, r.2)

/-- An environment whose primary generation request raises. -/
def envFail : LLMEnv := ⟨Except.error "ConnectionError", Except.ok "", fun _ => false⟩

/-- Task processing against `envFail`, as the worker invokes it. -/
def procFail : Task → Except String (Option String) :=
  fun _ => propose_patch envFail true

/-- Task processing that always succeeds writing nothing. -/
def procOk : Task → Except String (Option String) :=
  fun _ => Except.ok none

/-- An environment whose response signals uncertainty and whose web
fallback raises. -/
def envUnsure : LLMEnv := ⟨Except.ok "no idea", Except.error "SearchError", fun _ => true⟩

/-- Claim C2, corrected: only a failure of the web-search fallback inside
`ask_llm` is caught (and the original response returned).  A failure of
the primary generation request propagates out of `ask_llm` and
`propose_patch`, and the worker loop has no handler: the failing task is
not appended to the completed list and the worker terminates instead of
continuing to the next item. -/
theorem worker_failure_propagates :
    ∀ (env : LLMEnv) (e : String),
      (env.primary = Except.error e →
        ask_llm env = Except.error e ∧ propose_patch env true = Except.error e) ∧
      (∀ r, env.primary = Except.ok r → env.uncertain r = true →
        env.fallback = Except.error e → ask_llm env = Except.ok r) ∧
      (∀ (proc : Task → Except String (Option String)) (t : Task)
          (rest : List (Option Task)),
        proc t = Except.error e →
        background_worker proc (some t :: rest) = ([], WorkerExit.crashed e)) := by
  intro env e
  refine ⟨?_, ?_, ?_⟩
  · intro h
    have hask : ask_llm env = Except.error e := by
      simp [ask_llm, h]
    exact ⟨hask, by simp [propose_patch, hask]⟩
  · intro r h1 h2 h3
    simp [ask_llm, h1, h2, h3]
  · intro proc t rest h
    simp [background_worker, h]

/-- Witness for C2 (amended) at concrete environments: a raised primary
request terminates the worker with nothing completed, while a raised
web fallback is caught inside `ask_llm`. -/
theorem worker_failure_propagates_witness :
    ask_llm envFail = Except.error "ConnectionError" ∧
    ask_llm envUnsure = Except.ok "no idea" ∧
    background_worker procFail [some ("agent.py", "improve error handling"), none] =
      ([], WorkerExit.crashed "ConnectionError") := by
  refine ⟨?_, ?_, ?_⟩
  · exact ((worker_failure_propagates envFail "ConnectionError").1 rfl).1
  · exact (worker_failure_propagates envUnsure "SearchError").2.1 "no idea" rfl rfl rfl
  · exact (worker_failure_propagates envFail "ConnectionError").2.2 procFail
      ("agent.py", "improve error handling") [none]
      ((worker_failure_propagates envFail "ConnectionError").1 rfl).2

/-- Counterexample to claim C2 as stated: when the primary generation
request raises while the worker processes the first task, the task is not
appended to the completed list (its count there is 0, not 1), the second
task is never processed, and the loop ends by the propagating exception,
not by the sentinel. -/
theorem worker_failure_counterexample :
    (background_worker procFail
        [some ("agent.py", "fix the bug"), some ("core.py", "second task"), none]).1.count
      ("agent.py", "fix the bug") = 0 ∧
    (background_worker procFail
        [some ("agent.py", "fix the bug"), some ("core.py", "second task"), none]).2 ≠
      WorkerExit.sentinel := by
  constructor
  · decide
  · decide

/-- Claim C3, corrected: provided the processing of every task returns
normally (no exception propagates out of `propose_patch`), the worker pops
each task pushed before the sentinel, appends it to the completed list
exactly once in push order, and exits at the sentinel. -/
theorem worker_drains_queue :
    ∀ (proc : Task → Except String (Option String)) (ts : List Task),
      (∀ t ∈ ts, ∃ v, proc t = Except.ok v) →
      background_worker proc (ts.map some ++ [none]) = (ts, WorkerExit.sentinel) := by
  intro proc ts h
  induction ts with
  | nil => rfl
  | cons t ts ih =>
    obtain ⟨v, hv⟩ := h t (List.mem_cons_self t ts)
    have hrest := ih (fun u hu => h u (List.mem_cons_of_mem t hu))
    simp only [List.map_cons, List.cons_append, background_worker, hv, List.append_eq, hrest]

/-- Witness for C3 (amended): two tasks followed by the sentinel are
completed exactly once each, in order, and the worker exits. -/
theorem worker_drains_queue_witness :
    background_worker procOk
        [some ("a.py", "first change"), some ("b.py", "second change"), none] =
      ([("a.py", "first change"), ("b.py", "second change")], WorkerExit.sentinel) := by
  exact worker_drains_queue procOk [("a.py", "first change"), ("b.py", "second change")]
    (fun t _ => ⟨none, rfl⟩)

/-- Counterexample to claim C3 as stated: a task pushed before the
sentinel whose processing raises (primary generation request down) appears
zero times in the completed list, not exactly once. -/
theorem worker_drains_queue_counterexample :
    (background_worker procFail [some ("x.py", "improve logging"), none]).1.count
      ("x.py", "improve logging") = 0 := by
  decide

/-- An environment answering with a fenced code block. -/
def envFence : LLMEnv :=
  ⟨Except.ok "```python\nprint(1)\n```", Except.ok "", fun _ => false⟩

/-- Claim C7, corrected: `propose_patch` performs no code-block
extraction.  Whenever the generation call returns `r` and the trimmed
response is non-empty and does not start with `"no results"`, the text
written to the dated patch-note file is the raw trimmed response itself —
also when it contains a fenced code block. -/
theorem propose_patch_writes_raw :
    ∀ (env : LLMEnv) (r : String),
      ask_llm env = Except.ok r →
      ((pyStrip r).data.isEmpty || pyStartsWith (pyLower (pyStrip r)) "no results") = false →
      propose_patch env true = Except.ok (some (pyStrip r)) := by
  intro env r h1 h2
  simp [propose_patch, h1, h2]

/-- Witness for C7 (amended) at a concrete fenced response: the whole
fenced block, fences included, is written. -/
theorem propose_patch_writes_raw_witness :
    propose_patch envFence true = Except.ok (some "```python\nprint(1)\n```") := by
  exact propose_patch_writes_raw envFence "```python\nprint(1)\n```" rfl (by decide)

/-- Counterexample to claim C7 as stated: the response
`"```python\nprint(1)\n```"` contains a fenced code block with inner text
`"print(1)"`, yet the text written to the patch-note file is the whole
raw trimmed response, not the inner text. -/
theorem propose_patch_no_extraction_counterexample :
    propose_patch envFence true = Except.ok (some "```python\nprint(1)\n```") ∧
    extract_code_block "```python\nprint(1)\n```" = some "print(1)" ∧
    "```python\nprint(1)\n```" ≠ "print(1)" := by
  refine ⟨rfl, by decide, by decide⟩

/-! ## Insight dedup (`commands/SelfImproveCommand.py` lines 20–63)

One self-improve pass loads the history, filters the fresh insights
against it, queues the survivors as patch tasks and rewrites the history
file as the union.  The persisted set is modelled as a list used for
membership; `target` stands for the backtick-filename extraction plus
`resolve_path` defaulting to `"agent.py"`; the fresh insights (the parsed
bullet lines of `SelfReflectCommand`'s report) are an input. -/

structure PassResult where
  /-- The `(path, insight)` tasks put on `background_tasks` by this pass. -/
  queued : List Task
  /-- The insight history after this pass. -/
  history : List String
deriving DecidableEq, Repr

/-- Embeds `SelfImproveCommand.execute`: the two early returns (no
insights at all, nothing new) queue nothing and leave the history file
untouched; otherwise every occurrence of a not-yet-seen insight is queued
and the history becomes the union. -/
def selfImprovePass (target : String → String) (history : List String)
    (insights : List String) : PassResult :=
  if insights.isEmpty then ⟨[], history⟩
  else if (insights.filter (fun i => !(history.contains i))).isEmpty then ⟨[], history⟩
  else
    ⟨(insights.filter (fun i => !(history.contains i))).map (fun i => (target i, i)),
      history ++ insights.filter (fun i => !(history.contains i))⟩

/-- Runs a sequence of self-improve passes, each reading the history the
previous pass saved, and collects each pass's result. -/
def passResults (target : String → String) (history : List String) :
    List (List String) → List PassResult
  | [] => []
  | ins :: rest =>
    let r := selfImprovePass target history ins
    r :: passResults target r.history rest

/-- All tasks queued across a sequence of passes. -/
def runQueued (target : String → String) (history : List String)
    (passes : List (List String)) : List Task :=
  List.foldr (fun (r : PassResult) acc => r.queued ++ acc) [] (passResults target history passes)

/-- How many queued tasks carry the insight text `x`. -/
def tasksFor (x : String) (ts : List Task) : Nat :=
  (ts.filter (fun t => t.2 == x)).length

/-- Whether a pass queued some task for the insight text `x`. -/
def queuesText (r : PassResult) (x : String) : Bool :=
  r.queued.any (fun t => t.2 == x)

theorem selfImprovePass_queued (target : String → String) (history insights : List String) :
    (selfImprovePass target history insights).queued =
      (insights.filter (fun i => !(history.contains i))).map (fun i => (target i, i)) := by
  unfold selfImprovePass
  split
  · next hempty =>
      rw [List.isEmpty_iff.mp hempty]
      rfl
  · split
    · next hnew =>
        rw [List.isEmpty_iff.mp hnew]
        rfl
    · rfl

theorem selfImprovePass_history (target : String → String) (history insights : List String) :
    (selfImprovePass target history insights).history = history ∨
    (selfImprovePass target history insights).history =
      history ++ insights.filter (fun i => !(history.contains i)) := by
  unfold selfImprovePass
  split
  · exact Or.inl rfl
  · split
    · exact Or.inl rfl
    · exact Or.inr rfl

theorem selfImprovePass_history_of_queued (target : String → String)
    (history insights : List String)
    (hq : (selfImprovePass target history insights).queued ≠ []) :
    (selfImprovePass target history insights).history =
      history ++ insights.filter (fun i => !(history.contains i)) := by
  revert hq
  unfold selfImprovePass
  split
  · intro hq
    exact absurd rfl hq
  · split
    · intro hq
      exact absurd rfl hq
    · intro _
      rfl

theorem queuesText_false_of_mem {target : String → String} {history : List String}
    {insights : List String} {x : String} (hx : x ∈ history) :
    queuesText (selfImprovePass target history insights) x = false := by
  rw [queuesText, selfImprovePass_queued]
  simp only [List.any_eq_false, List.mem_map, List.mem_filter]
  rintro t ⟨i, ⟨hi, hni⟩, rfl⟩
  intro hbeq
  have hix : i = x := by simpa using hbeq
  subst hix
  have hnotmem : i ∉ history := by simpa using hni
  exact hnotmem hx

theorem mem_history_of_queuesText {target : String → String} {history : List String}
    {insights : List String} {x : String}
    (h : queuesText (selfImprovePass target history insights) x = true) :
    x ∈ (selfImprovePass target history insights).history := by
  have hq : (selfImprovePass target history insights).queued ≠ [] := by
    intro h0
    rw [queuesText, h0] at h
    simp [List.any_nil] at h
  rw [selfImprovePass_history_of_queued target history insights hq]
  rw [queuesText, selfImprovePass_queued] at h
  simp only [List.any_eq_true, List.mem_map] at h
  obtain ⟨t, ⟨i, hi, rfl⟩, hbeq⟩ := h
  have hix : i = x := by simpa using hbeq
  subst hix
  exact List.mem_append_right _ hi

theorem mem_history_mono {target : String → String} {history : List String}
    {insights : List String} {x : String} (hx : x ∈ history) :
    x ∈ (selfImprovePass target history insights).history := by
  rcases selfImprovePass_history target history insights with h | h <;> rw [h]
  · exact hx
  · exact List.mem_append_left _ hx

theorem no_pass_queues_of_mem {target : String → String} {x : String} :
    ∀ (passes : List (List String)) (history : List String), x ∈ history →
      (passResults target history passes).filter (fun r => queuesText r x) = [] := by
  intro passes
  induction passes with
  | nil => intro history _; rfl
  | cons ins rest ih =>
    intro history hx
    simp only [passResults, List.filter_cons, queuesText_false_of_mem hx]
    exact ih _ (mem_history_mono hx)

/-- Claim C8, corrected: across any sequence of self-improve passes, at
most one pass ever queues tasks for a given insight text — a pass only
queues insights absent from the history, and records what it queues in
the history before the next pass reads it.  (Within that single pass,
each duplicate occurrence of the text in the fresh insight list is queued
separately, which is what refutes the claim's global at-most-once bound
on tasks.) -/
theorem insight_queued_in_at_most_one_pass :
    ∀ (target : String → String) (h0 : List String) (passes : List (List String))
      (x : String),
      ((passResults target h0 passes).filter (fun r => queuesText r x)).length ≤ 1 := by
  intro target h0 passes x
  induction passes generalizing h0 with
  | nil => simp [passResults]
  | cons ins rest ih =>
    by_cases hq : queuesText (selfImprovePass target h0 ins) x
    · simp only [passResults, List.filter_cons, hq, if_true]
      rw [no_pass_queues_of_mem rest _ (mem_history_of_queuesText hq)]
      simp
    · simp only [passResults, List.filter_cons, Bool.eq_false_iff.mpr hq]
      exact ih _

/-- Counterexample to claim C8 as stated: a single pass whose fresh
insight list contains the same text twice (two identical bullet lines)
queues two patch tasks for that text — the duplicate filter is computed
against the history before the loop, so duplicates within one pass
survive. -/
theorem insight_dedup_counterexample :
    tasksFor "add docstrings to agent.py"
      (runQueued (fun _ => "agent.py") []
        [["add docstrings to agent.py", "add docstrings to agent.py"]]) = 2 := by
  decide

/-! ## Feedback learning (`agent.py` lines 129–156)

`learn_from_interaction` sweeps the live feedback file: records whose
status is not `"new"` are kept; `"new"` records are marked `"seen"`,
appended to the archive file and collected as the context's
`recent_feedback`.  Files are modelled as record lists in order. -/

structure Feedback where
  status : String
  payload : String
deriving DecidableEq, Repr

/-- The per-line loop of `learn_from_interaction`: returns
`(updated_feedback, recent_feedback)`; each `"new"` record is archived as
its `"seen"` copy, in file order. -/
def processFeedback : List Feedback → List Feedback × List Feedback
  | [] => ([], [])
  | fb :: rest =>
    let r := processFeedback rest
    if fb.status = "new" then (r.1, ⟨"seen", fb.payload⟩ :: r.2)
    else (fb :: r.1, r.2)

/-- Embeds `learn_from_interaction` from `src/aias/agent.py`: returns the
rewritten live file, the archive file after its appends, and the
context's new `recent_feedback`. -/
def learn_from_interaction (live archive : List Feedback) :
    List Feedback × List Feedback × List Feedback :=
  ((processFeedback live).1, archive ++ (processFeedback live).2, (processFeedback live).2)

theorem processFeedback_nonnew {L : List Feedback}
    (h : ∀ f ∈ L, f.status ≠ "new") : processFeedback L = (L, []) := by
  induction L with
  | nil => rfl
  | cons fb rest ih =>
    have hfb : ¬ fb.status = "new" := h fb (List.mem_cons_self fb rest)
    have hrest := ih (fun f hf => h f (List.mem_cons_of_mem fb hf))
    simp [processFeedback, hfb, hrest]

theorem processFeedback_append_nonnew {A rest : List Feedback}
    (h : ∀ f ∈ A, f.status ≠ "new") :
    processFeedback (A ++ rest) =
      (A ++ (processFeedback rest).1, (processFeedback rest).2) := by
  induction A with
  | nil => rfl
  | cons fb A ih =>
    have hfb : ¬ fb.status = "new" := h fb (List.mem_cons_self fb A)
    have hA := ih (fun f hf => h f (List.mem_cons_of_mem fb hf))
    simp [processFeedback, hfb, hA]

/-- Claim C9: when the live feedback file holds exactly one `"new"` record
`r` (any other records are not `"new"`), one feedback-learning pass leaves
the live file with the non-`"new"` records unchanged in order — zero
`"new"` records — appends `r` with status `"seen"` to the archive, and
sets the context's `recent_feedback` to exactly that one record. -/
theorem learn_from_interaction_single_new :
    ∀ (A B archive : List Feedback) (r : Feedback),
      (∀ f ∈ A, f.status ≠ "new") → (∀ f ∈ B, f.status ≠ "new") →
      r.status = "new" →
      learn_from_interaction (A ++ r :: B) archive =
        (A ++ B, archive ++ [⟨"seen", r.payload⟩], [⟨"seen", r.payload⟩]) ∧
      ∀ f ∈ (learn_from_interaction (A ++ r :: B) archive).1, f.status ≠ "new" := by
  intro A B archive r hA hB hr
  have hmid : processFeedback (r :: B) = ((processFeedback B).1, ⟨"seen", r.payload⟩ ::
      (processFeedback B).2) := by
    simp [processFeedback, hr]
  have hB' := processFeedback_nonnew hB
  have hall : processFeedback (A ++ r :: B) = (A ++ B, [⟨"seen", r.payload⟩]) := by
    rw [processFeedback_append_nonnew hA, hmid, hB']
  constructor
  · simp [learn_from_interaction, hall]
  · intro f hf
    simp only [learn_from_interaction, hall] at hf
    rcases List.mem_append.mp hf with h | h
    · exact hA f h
    · exact hB f h

/-- Witness for C9 at a concrete feedback file: one `"seen"` record plus
one `"new"` record. -/
theorem learn_from_interaction_single_new_witness :
    learn_from_interaction [⟨"seen", "older note"⟩, ⟨"new", "please add tests"⟩] [] =
      ([⟨"seen", "older note"⟩], [⟨"seen", "please add tests"⟩],
        [⟨"seen", "please add tests"⟩]) := by
  have h := learn_from_interaction_single_new [⟨"seen", "older note"⟩] [] []
    ⟨"new", "please add tests"⟩ (by decide) (by decide) rfl
  exact h.1

end Aias
